import Mathlib

/-!
Shallow embedding of the gnos repository core (capability tokens, capability
manager, inode manager, FUSE protocol engine) and verification of the
specification's claims about it.

Source files embedded:
- src/security/capabilities.rs  (signed, audited capability manager)
- src/security/mod.rs           (simplified, fail-open capability manager)
- src/vfs/inode.rs              (inode manager)
- src/vfs/filesystem.rs         (protocol engine: GnosFileSystem)

Modelling conventions:
- Rust `SystemTime` is modelled as `Nat` nanoseconds since the Unix epoch;
  `Duration` likewise as nanoseconds. `as_secs` is division by 10^9.
- Rust `PathBuf` is modelled as `String`; `Path::starts_with` (std, external
  to the repository) is modelled component-wise, as documented for std.
- Rust `HashMap` is modelled as an association list with insert-or-replace
  semantics; iteration order is list order.
- Machine integers are modelled as `Nat`; the only arithmetic the embedded
  code performs on them cannot overflow in the scenarios proved, and bit
  operations use `Nat.land` which agrees with `u8` bitand on values < 256.
- External library calls (ring HMAC/SHA-256, serde_json, base64, std env)
  are modelled as stated at each definition.
-/

namespace Gnos

/-- Nanoseconds per second; `SystemTime` is modelled at nanosecond
granularity so that whole-second truncation in the source is visible. -/
def nsPerSec : Nat := 1000000000

/-- `Duration::as_secs` / `duration_since(UNIX_EPOCH).as_secs()`:
truncation of a nanosecond instant to whole epoch seconds. -/
def asSecs (t : Nat) : Nat := t / nsPerSec

/-! ## Decimal rendering of integers

Models Rust's `Display` for unsigned integers (`format!("{}", n)`), which is
std library code external to the repository: most-significant-first decimal
digits with no leading zeros (and "0" for zero). -/

/-- Digit values of `n`, most significant first, by fuel recursion
(`fuel ≥ n` suffices); empty for `n = 0`. -/
def natDigitsAux : Nat → Nat → List Nat
  | 0, _ => []
  | fuel + 1, n => if n = 0 then [] else natDigitsAux fuel (n / 10) ++ [n % 10]

/-- Decimal digit values of `n`, most significant first; `[0]` for zero. -/
def natDigits (n : Nat) : List Nat := if n = 0 then [0] else natDigitsAux n n

/-- Value of a most-significant-first digit list. -/
def digitsVal (ds : List Nat) : Nat := ds.foldl (fun a d => a * 10 + d) 0

/-- Decimal string rendering of `n` (Rust `format!("{}", n)`). -/
def decimalRepr (n : Nat) : String := String.mk ((natDigits n).map Nat.digitChar)

theorem natDigitsAux_foldl (fuel : Nat) : ∀ n acc, n ≤ fuel →
    List.foldl (fun a d => a * 10 + d) acc (natDigitsAux fuel n) =
      acc * 10 ^ (natDigitsAux fuel n).length + n := by
  induction fuel with
  | zero =>
    intro n acc h
    have hn : n = 0 := Nat.le_zero.mp h
    simp [natDigitsAux, hn]
  | succ f ih =>
    intro n acc h
    by_cases hn : n = 0
    · simp [natDigitsAux, hn]
    · have hdiv : n / 10 ≤ f := by
        have h1 : n / 10 < n := Nat.div_lt_self (Nat.pos_of_ne_zero hn) (by norm_num)
        omega
      have := ih (n / 10) acc hdiv
      simp only [natDigitsAux, hn, if_false, List.foldl_append, List.foldl_cons,
        List.foldl_nil, List.length_append, List.length_cons, List.length_nil]
      rw [this]
      ring_nf
      omega

theorem digitsVal_natDigits (n : Nat) : digitsVal (natDigits n) = n := by
  by_cases hn : n = 0
  · simp [digitsVal, natDigits, hn]
  · simp only [digitsVal, natDigits, hn, if_false]
    have := natDigitsAux_foldl n n 0 (Nat.le_refl n)
    simpa using this

theorem natDigitsAux_lt (fuel : Nat) : ∀ n d, d ∈ natDigitsAux fuel n → d < 10 := by
  induction fuel with
  | zero => intro n d h; simp [natDigitsAux] at h
  | succ f ih =>
    intro n d h
    by_cases hn : n = 0
    · simp [natDigitsAux, hn] at h
    · simp only [natDigitsAux, hn, if_false, List.mem_append, List.mem_cons,
        List.not_mem_nil, or_false] at h
      rcases h with h | h
      · exact ih (n / 10) d h
      · subst h; exact Nat.mod_lt n (by norm_num)

theorem natDigits_lt (n : Nat) : ∀ d, d ∈ natDigits n → d < 10 := by
  intro d h
  by_cases hn : n = 0
  · simp [natDigits, hn] at h; omega
  · simp only [natDigits, hn, if_false] at h
    exact natDigitsAux_lt n n d h

/-- Value of a decimal character list (left inverse of rendering). -/
def charsVal (cs : List Char) : Nat := cs.foldl (fun a c => a * 10 + (c.toNat - 48)) 0

theorem digitChar_toNat (d : Nat) (h : d < 10) : (Nat.digitChar d).toNat - 48 = d := by
  interval_cases d <;> rfl

theorem charsVal_decimalRepr (n : Nat) : charsVal (decimalRepr n).data = n := by
  have h2 : ∀ ds acc, (∀ d ∈ ds, d < 10) →
      List.foldl (fun a c => a * 10 + (c.toNat - 48)) acc (ds.map Nat.digitChar) =
        List.foldl (fun a d => a * 10 + d) acc ds := by
    intro ds
    induction ds with
    | nil => intro acc _; rfl
    | cons d ds ih =>
      intro acc hlt
      simp only [List.map_cons, List.foldl_cons]
      rw [digitChar_toNat d (hlt d (List.mem_cons_self d ds)), ih _
        (fun x hx => hlt x (List.mem_cons_of_mem d hx))]
  calc charsVal (decimalRepr n).data
      = List.foldl (fun a d => a * 10 + d) 0 (natDigits n) :=
        h2 (natDigits n) 0 (natDigits_lt n)
    _ = n := digitsVal_natDigits n

theorem decimalRepr_injective : Function.Injective decimalRepr := by
  intro m n h
  have := charsVal_decimalRepr m
  rw [h, charsVal_decimalRepr n] at this
  omega

/-! ## Operations (src/security/capabilities.rs lines 13-30; the identical
enum also appears in src/security/mod.rs lines 7-24) -/

inductive Operation
  | Read
  | Write
  | Execute
  | List
  deriving DecidableEq, Repr

/-- `Operation::to_bit` (capabilities.rs lines 21-30). -/
def Operation.to_bit : Operation → Nat
  | .Read => 0b100
  | .Write => 0b010
  | .Execute => 0b001
  | .List => 0b100

/-- Rust's `{:?}` debug rendering of `Operation`, used in the denial
message of `check_permission`. -/
def Operation.debugStr : Operation → String
  | .Read => "Read"
  | .Write => "Write"
  | .Execute => "Execute"
  | .List => "List"

/-! ## Path-segment containment

`Path::starts_with` from Rust's std (external to the repository) compares
whole path components, not raw string prefixes: `/cloud/aws` starts with
`/cloud`, while `/cloud2/x` does not. Modelled here over `String` paths by
splitting on `/`, with a root marker for absolute paths. -/

/-- Splits a character list on `/`, dropping empty segments (as Rust's
`Components` does for repeated separators); the accumulator holds the
current segment reversed. -/
def segsAux : List Char → List Char → List (List Char)
  | [], cur => if cur.isEmpty then [] else [cur.reverse]
  | c :: rest, cur =>
    if c = '/' then
      if cur.isEmpty then segsAux rest [] else cur.reverse :: segsAux rest []
    else segsAux rest (c :: cur)

/-- Components of a path string: a `"/"` root marker when absolute, then
the non-empty segments between slashes. (Rust's `.` component handling is
outside the modelled scope; no path in this development contains one.) -/
def pathComponents (s : String) : List String :=
  let segs := (segsAux s.data []).map String.mk
  match s.data with
  | '/' :: _ => "/" :: segs
  | _ => segs

/-- Model of Rust `Path::starts_with`: component-wise prefix. -/
def pathStartsWith (target base : String) : Bool :=
  (pathComponents base).isPrefixOf (pathComponents target)

/-! ## Capability (capabilities.rs lines 32-131)

The HMAC-SHA256 tag computed by the `ring` crate is external to the
repository. Modelled from the spec: a keyed message-authentication tag over
the signing input, represented as the opaque pair (key bytes, message);
this pair determines and is determined by what the source feeds to
`hmac::sign`, and `verify` compares the stored tag against the recomputed
one exactly as `hmac::verify` does. The base64 transport encoding of the
tag inside the `signature` field is absorbed into the representation. -/

/-- Modelled from the spec: HMAC-SHA256 keyed tag (ring crate, external);
an injective function of the key and the message. -/
def hmacSha256 (secret : List Nat) (data : String) : List Nat × String :=
  (secret, data)

structure Capability where
  path : String
  permissions : Nat
  expiration : Nat
  owner : String
  issued_at : Nat
  signature : Option (List Nat × String)
  deriving DecidableEq, Repr

namespace Capability

/-- `Capability::new` (capabilities.rs lines 43-58); `now` is the
`SystemTime::now()` instant. -/
def new (path : String) (permissions : Nat) (owner : String)
    (now duration : Nat) : Capability :=
  { path := path
    permissions := permissions
    expiration := now + duration
    owner := owner
    issued_at := now
    signature := none }

/-- `Capability::allows` (lines 60-62): `self.permissions & operation.to_bit() != 0`. -/
def allows (c : Capability) (operation : Operation) : Bool :=
  c.permissions &&& operation.to_bit != 0

/-- `Capability::is_expired` (lines 64-66): `SystemTime::now() > self.expiration`,
with the current instant passed explicitly. -/
def is_expired (c : Capability) (now : Nat) : Bool :=
  now > c.expiration

/-- `Capability::is_valid_for_path` (lines 68-70): `path.starts_with(&self.path)`. -/
def is_valid_for_path (c : Capability) (path : String) : Bool :=
  pathStartsWith path c.path

/-- The signing input of `sign`/`verify` (lines 100-105 and 123-128):
`format!("{}:{}:{}:{}", path.display(), permissions, expiration-as-epoch-secs, owner)`. -/
def signingData (c : Capability) : String :=
  c.path ++ ":" ++ decimalRepr c.permissions ++ ":" ++
    decimalRepr (asSecs c.expiration) ++ ":" ++ c.owner

/-- `Capability::sign` (lines 98-111): computes the keyed tag over the
signing input and stores it in the `signature` field. -/
def sign (c : Capability) (secret : List Nat) : Capability :=
  { c with signature := some (hmacSha256 secret c.signingData) }

/-- `Capability::verify` (lines 113-131): recomputes the tag over the
signing input and compares it with the stored one; `false` when no
signature is present. -/
def verify (c : Capability) (secret : List Nat) : Bool :=
  match c.signature with
  | none => false
  | some sig => sig = hmacSha256 secret c.signingData

end Capability

/-! ## Structured encoding of capabilities

Modelled from the spec: `serde_json::to_string` / `serde_json::from_str`
(external crate) — the capability's "structured encoding", a self-describing
invertible byte encoding of all six fields, with the decoder failing on
malformed input and consuming the input in full. Numbers are encoded as
decimal digit bytes terminated by `58` (the `:` byte, never a digit);
strings as a length followed by the codepoints; all emitted bytes are
digit bytes or `58`, so the UTF-8 step of `from_token` is absorbed. -/

/-- A natural number as decimal digit bytes terminated by byte 58. -/
def encNat (n : Nat) : List Nat := (natDigits n).map (· + 48) ++ [58]

/-- A string as its length followed by each codepoint. -/
def encString (s : String) : List Nat :=
  encNat s.data.length ++ (s.data.map (fun c => encNat c.toNat)).flatten

/-- A list of naturals as its length followed by the elements. -/
def encNatList (l : List Nat) : List Nat :=
  encNat l.length ++ (l.map encNat).flatten

/-- The optional signature: tag byte sequence 0 for none, 1 then the
tag's key bytes and message for some. -/
def encOptionSig : Option (List Nat × String) → List Nat
  | none => encNat 0
  | some sg => encNat 1 ++ encNatList sg.1 ++ encString sg.2

/-- The structured encoding of a full capability record. -/
def encodeCapability (c : Capability) : List Nat :=
  encString c.path ++ encNat c.permissions ++ encNat c.expiration ++
    encString c.owner ++ encNat c.issued_at ++ encOptionSig c.signature

/-- Decimal-number parser: digits accumulate until byte 58. -/
def parseNatAux : Nat → List Nat → Option (Nat × List Nat)
  | _, [] => none
  | acc, b :: bs =>
    if b = 58 then some (acc, bs)
    else if 48 ≤ b ∧ b ≤ 57 then parseNatAux (acc * 10 + (b - 48)) bs
    else none

def parseNat (bs : List Nat) : Option (Nat × List Nat) := parseNatAux 0 bs

/-- Parse `k` codepoints. -/
def parseChars : Nat → List Nat → Option (List Char × List Nat)
  | 0, bs => some ([], bs)
  | k + 1, bs =>
    match parseNat bs with
    | none => none
    | some (cv, bs1) =>
      match parseChars k bs1 with
      | none => none
      | some (cs, bs2) => some (Char.ofNat cv :: cs, bs2)

def parseString (bs : List Nat) : Option (String × List Nat) :=
  match parseNat bs with
  | none => none
  | some (len, bs1) =>
    match parseChars len bs1 with
    | none => none
    | some (cs, bs2) => some (String.mk cs, bs2)

/-- Parse `k` naturals. -/
def parseNats : Nat → List Nat → Option (List Nat × List Nat)
  | 0, bs => some ([], bs)
  | k + 1, bs =>
    match parseNat bs with
    | none => none
    | some (v, bs1) =>
      match parseNats k bs1 with
      | none => none
      | some (vs, bs2) => some (v :: vs, bs2)

def parseNatList (bs : List Nat) : Option (List Nat × List Nat) :=
  match parseNat bs with
  | none => none
  | some (len, bs1) => parseNats len bs1

def parseOptionSig (bs : List Nat) : Option (Option (List Nat × String) × List Nat) :=
  match parseNat bs with
  | none => none
  | some (0, bs1) => some (none, bs1)
  | some (1, bs1) =>
    match parseNatList bs1 with
    | none => none
    | some (key, bs2) =>
      match parseString bs2 with
      | none => none
      | some (msg, bs3) => some (some (key, msg), bs3)
  | some _ => none

/-- Structured decoding of a capability; fails unless the whole input is
consumed. -/
def decodeCapability (bs : List Nat) : Option Capability :=
  match parseString bs with
  | none => none
  | some (path, bs1) =>
    match parseNat bs1 with
    | none => none
    | some (permissions, bs2) =>
      match parseNat bs2 with
      | none => none
      | some (expiration, bs3) =>
        match parseString bs3 with
        | none => none
        | some (owner, bs4) =>
          match parseNat bs4 with
          | none => none
          | some (issued, bs5) =>
            match parseOptionSig bs5 with
            | none => none
            | some (sig, bs6) =>
              if bs6.isEmpty then
                some ⟨path, permissions, expiration, owner, issued, sig⟩
              else none

theorem parseNatAux_append (ds : List Nat) : ∀ acc rest, (∀ d ∈ ds, d < 10) →
    parseNatAux acc (ds.map (· + 48) ++ 58 :: rest) =
      some (List.foldl (fun a d => a * 10 + d) acc ds, rest) := by
  induction ds with
  | nil => intro acc rest _; simp [parseNatAux]
  | cons d ds ih =>
    intro acc rest hlt
    have hd : d < 10 := hlt d (List.mem_cons_self d ds)
    have h58 : ¬(d + 48 = 58) := by omega
    have hrange : 48 ≤ d + 48 ∧ d + 48 ≤ 57 := by omega
    simp only [List.map_cons, List.cons_append, parseNatAux, h58, if_false,
      hrange, and_self, if_true, List.foldl_cons]
    have : d + 48 - 48 = d := by omega
    rw [this]
    exact ih _ rest (fun x hx => hlt x (List.mem_cons_of_mem d hx))

theorem parseNat_encNat (n : Nat) (rest : List Nat) :
    parseNat (encNat n ++ rest) = some (n, rest) := by
  have h : encNat n ++ rest = (natDigits n).map (· + 48) ++ 58 :: rest := by
    simp [encNat]
  rw [parseNat, h, parseNatAux_append (natDigits n) 0 rest (natDigits_lt n)]
  exact congrArg _ (congrArg (·, rest) (digitsVal_natDigits n))

theorem parseChars_enc (cs : List Char) : ∀ rest,
    parseChars cs.length ((cs.map (fun c => encNat c.toNat)).flatten ++ rest) =
      some (cs, rest) := by
  induction cs with
  | nil => intro rest; simp [parseChars]
  | cons c cs ih =>
    intro rest
    simp only [List.map_cons, List.flatten_cons, List.length_cons, List.append_assoc]
    simp only [parseChars, parseNat_encNat, ih rest, Char.ofNat_toNat]

theorem parseString_enc (s : String) (rest : List Nat) :
    parseString (encString s ++ rest) = some (s, rest) := by
  cases s with
  | mk cs =>
    simp only [encString, List.append_assoc]
    simp only [parseString, parseNat_encNat, parseChars_enc cs rest]

theorem parseNats_enc (l : List Nat) : ∀ rest,
    parseNats l.length ((l.map encNat).flatten ++ rest) = some (l, rest) := by
  induction l with
  | nil => intro rest; simp [parseNats]
  | cons v l ih =>
    intro rest
    simp only [List.map_cons, List.flatten_cons, List.length_cons, List.append_assoc]
    simp only [parseNats, parseNat_encNat, ih rest]

theorem parseNatList_enc (l : List Nat) (rest : List Nat) :
    parseNatList (encNatList l ++ rest) = some (l, rest) := by
  simp only [encNatList, List.append_assoc]
  simp only [parseNatList, parseNat_encNat, parseNats_enc l rest]

theorem parseOptionSig_enc (sg : Option (List Nat × String)) (rest : List Nat) :
    parseOptionSig (encOptionSig sg ++ rest) = some (sg, rest) := by
  cases sg with
  | none => simp only [encOptionSig, parseOptionSig, parseNat_encNat]
  | some p =>
    simp only [encOptionSig, List.append_assoc]
    simp only [parseOptionSig, parseNat_encNat, parseNatList_enc, parseString_enc]

theorem decodeCapability_encodeCapability (c : Capability) :
    decodeCapability (encodeCapability c) = some c := by
  cases c with
  | mk path permissions expiration owner issued sig =>
    have hnil : encOptionSig sig = encOptionSig sig ++ [] := by simp
    simp only [encodeCapability, List.append_assoc]
    rw [hnil]
    simp only [decodeCapability, parseString_enc, parseNat_encNat,
      parseOptionSig_enc, List.isEmpty_nil, if_true]

/-! ### Bounds on the emitted bytes (needed by the base64 layer) -/

theorem encNat_lt (n : Nat) : ∀ b ∈ encNat n, b < 256 := by
  intro b hb
  simp only [encNat, List.mem_append, List.mem_map, List.mem_cons,
    List.not_mem_nil, or_false] at hb
  rcases hb with ⟨d, hd, rfl⟩ | rfl
  · have := natDigits_lt n d hd; omega
  · omega

theorem encString_lt (s : String) : ∀ b ∈ encString s, b < 256 := by
  intro b hb
  simp only [encString, List.mem_append, List.mem_flatten, List.mem_map] at hb
  rcases hb with hb | ⟨l, ⟨c, _, rfl⟩, hbl⟩
  · exact encNat_lt _ b hb
  · exact encNat_lt _ b hbl

theorem encNatList_lt (l : List Nat) : ∀ b ∈ encNatList l, b < 256 := by
  intro b hb
  simp only [encNatList, List.mem_append, List.mem_flatten, List.mem_map] at hb
  rcases hb with hb | ⟨m, ⟨v, _, rfl⟩, hbm⟩
  · exact encNat_lt _ b hb
  · exact encNat_lt _ b hbm

theorem encOptionSig_lt (sg : Option (List Nat × String)) :
    ∀ b ∈ encOptionSig sg, b < 256 := by
  intro b hb
  cases sg with
  | none => exact encNat_lt 0 b hb
  | some p =>
    simp only [encOptionSig, List.mem_append] at hb
    rcases hb with (hb | hb) | hb
    · exact encNat_lt 1 b hb
    · exact encNatList_lt _ b hb
    · exact encString_lt _ b hb

theorem encodeCapability_lt (c : Capability) : ∀ b ∈ encodeCapability c, b < 256 := by
  intro b hb
  simp only [encodeCapability, List.mem_append] at hb
  rcases hb with ((((hb | hb) | hb) | hb) | hb) | hb
  · exact encString_lt _ b hb
  · exact encNat_lt _ b hb
  · exact encNat_lt _ b hb
  · exact encString_lt _ b hb
  · exact encNat_lt _ b hb
  · exact encOptionSig_lt _ b hb

/-! ## Base64, URL-safe alphabet, no padding

Models the `base64` crate's `URL_SAFE_NO_PAD` engine (external to the
repository): the standard URL-safe alphabet `A-Z a-z 0-9 - _`, no padding
characters, and decoding that rejects non-canonical trailing bits. -/

def b64Alphabet : List Char :=
  "ABCDEFGHIJKLMNOPQRSTUVWXYZabcdefghijklmnopqrstuvwxyz0123456789-_".data

def b64Char (n : Nat) : Char := b64Alphabet.getD n 'A'

def b64Value (c : Char) : Option Nat := b64Alphabet.findIdx? (· = c)

/-- Base64 encoding of a byte list: 3-byte groups become 4 sextets; a final
group of 1 or 2 bytes becomes 2 or 3 sextets with zero trailing bits. -/
def b64Encode : List Nat → List Char
  | [] => []
  | [a] => [b64Char (a / 4), b64Char (a % 4 * 16)]
  | [a, b] => [b64Char (a / 4), b64Char (a % 4 * 16 + b / 16), b64Char (b % 16 * 4)]
  | a :: b :: c :: rest =>
    b64Char (a / 4) :: b64Char (a % 4 * 16 + b / 16) ::
      b64Char (b % 16 * 4 + c / 64) :: b64Char (c % 64) :: b64Encode rest
termination_by structural l => l

/-- Base64 decoding; fails on characters outside the alphabet, on input
lengths ≡ 1 (mod 4), and on nonzero trailing bits. -/
def b64Decode : List Char → Option (List Nat)
  | [] => some []
  | [_] => none
  | [c1, c2] =>
    match b64Value c1, b64Value c2 with
    | some v1, some v2 =>
      if v2 % 16 = 0 then some [v1 * 4 + v2 / 16] else none
    | _, _ => none
  | [c1, c2, c3] =>
    match b64Value c1, b64Value c2, b64Value c3 with
    | some v1, some v2, some v3 =>
      if v3 % 4 = 0 then some [v1 * 4 + v2 / 16, v2 % 16 * 16 + v3 / 4] else none
    | _, _, _ => none
  | c1 :: c2 :: c3 :: c4 :: rest =>
    match b64Value c1, b64Value c2, b64Value c3, b64Value c4 with
    | some v1, some v2, some v3, some v4 =>
      match b64Decode rest with
      | some bs =>
        some ((v1 * 4 + v2 / 16) :: (v2 % 16 * 16 + v3 / 4) :: (v3 % 4 * 64 + v4) :: bs)
      | none => none
    | _, _, _, _ => none
termination_by structural l => l

theorem b64Value_b64Char : ∀ n : Fin 64, b64Value (b64Char n.val) = some n.val := by
  decide

theorem b64Value_b64Char_lt (n : Nat) (h : n < 64) : b64Value (b64Char n) = some n :=
  b64Value_b64Char ⟨n, h⟩

theorem b64Decode_b64Encode (l : List Nat) (h : ∀ b ∈ l, b < 256) :
    b64Decode (b64Encode l) = some l := by
  induction l using b64Encode.induct with
  | case1 => rfl
  | case2 a =>
    have ha : a < 256 := h a (by simp)
    have h1 : a / 4 < 64 := by omega
    have h2 : a % 4 * 16 < 64 := by omega
    simp only [b64Encode, b64Decode, b64Value_b64Char_lt _ h1, b64Value_b64Char_lt _ h2]
    have h3 : a % 4 * 16 % 16 = 0 := by omega
    simp only [h3, if_true]
    congr 2
    omega
  | case3 a b =>
    have ha : a < 256 := h a (by simp)
    have hb : b < 256 := h b (by simp)
    have h1 : a / 4 < 64 := by omega
    have h2 : a % 4 * 16 + b / 16 < 64 := by omega
    have h3 : b % 16 * 4 < 64 := by omega
    simp only [b64Encode, b64Decode, b64Value_b64Char_lt _ h1,
      b64Value_b64Char_lt _ h2, b64Value_b64Char_lt _ h3]
    have h4 : b % 16 * 4 % 4 = 0 := by omega
    simp only [h4, if_true]
    have h5 : (a / 4) * 4 + (a % 4 * 16 + b / 16) / 16 = a := by omega
    have h6 : (a % 4 * 16 + b / 16) % 16 * 16 + b % 16 * 4 / 4 = b := by omega
    rw [h5, h6]
  | case4 a b c rest ih =>
    have ha : a < 256 := h a (by simp)
    have hb : b < 256 := h b (by simp)
    have hc : c < 256 := h c (by simp)
    have hrest : ∀ x ∈ rest, x < 256 := by
      intro x hx; exact h x (by simp [hx])
    have h1 : a / 4 < 64 := by omega
    have h2 : a % 4 * 16 + b / 16 < 64 := by omega
    have h3 : b % 16 * 4 + c / 64 < 64 := by omega
    have h4 : c % 64 < 64 := by omega
    have henc : b64Encode (a :: b :: c :: rest) =
        b64Char (a / 4) :: b64Char (a % 4 * 16 + b / 16) ::
          b64Char (b % 16 * 4 + c / 64) :: b64Char (c % 64) :: b64Encode rest := rfl
    rw [henc]
    have hdec :
        b64Decode (b64Char (a / 4) :: b64Char (a % 4 * 16 + b / 16) ::
            b64Char (b % 16 * 4 + c / 64) :: b64Char (c % 64) :: b64Encode rest) =
          match b64Value (b64Char (a / 4)), b64Value (b64Char (a % 4 * 16 + b / 16)),
              b64Value (b64Char (b % 16 * 4 + c / 64)), b64Value (b64Char (c % 64)) with
          | some v1, some v2, some v3, some v4 =>
            match b64Decode (b64Encode rest) with
            | some bs =>
              some ((v1 * 4 + v2 / 16) :: (v2 % 16 * 16 + v3 / 4) ::
                (v3 % 4 * 64 + v4) :: bs)
            | none => none
          | _, _, _, _ => none := by
      cases hbe : b64Encode rest with
      | nil => rfl
      | cons x xs => cases xs with
        | nil => rfl
        | cons y ys => cases ys with
          | nil => rfl
          | cons z zs => rfl
    rw [hdec, b64Value_b64Char_lt _ h1, b64Value_b64Char_lt _ h2,
      b64Value_b64Char_lt _ h3, b64Value_b64Char_lt _ h4, ih hrest]
    dsimp only
    have e1 : a / 4 * 4 + (a % 4 * 16 + b / 16) / 16 = a := by omega
    have e2 : (a % 4 * 16 + b / 16) % 16 * 16 + (b % 16 * 4 + c / 64) / 4 = b := by omega
    have e3 : (b % 16 * 4 + c / 64) % 4 * 64 + c % 64 = c := by omega
    rw [e1, e2, e3]

/-! ## Error type (src/lib.rs lines 19-41) -/

inductive GnosError
  | PermissionDenied (msg : String)
  | PathNotFound (msg : String)
  | Driver (msg : String)
  | Io (msg : String)
  | CapabilityExpired
  | InvalidPath (msg : String)
  | ResourceBusy (msg : String)
  deriving DecidableEq, Repr

instance {ε α : Type} [DecidableEq ε] [DecidableEq α] : DecidableEq (Except ε α) :=
  fun x y =>
    match x, y with
    | .error a, .error b =>
      if h : a = b then isTrue (by rw [h])
      else isFalse (fun hc => h (by injection hc))
    | .ok a, .ok b =>
      if h : a = b then isTrue (by rw [h])
      else isFalse (fun hc => h (by injection hc))
    | .error _, .ok _ => isFalse (fun hc => Except.noConfusion hc)
    | .ok _, .error _ => isFalse (fun hc => Except.noConfusion hc)

/-! ## Token codec (capabilities.rs lines 72-96) -/

/-- `Capability::to_token` (lines 72-78): `"gnos."` followed by URL-safe
unpadded base64 of the structured encoding. The source wraps this in
`Result` but can only fail if serialization fails, which the model cannot. -/
def Capability.to_token (c : Capability) : String :=
  "gnos." ++ String.mk (b64Encode (encodeCapability c))

/-- `Capability::from_token` (lines 80-96): prefix check, base64 decode,
structured decode, with the three distinct error messages of the source
(the UTF-8 validation step is absorbed into the structured decoding). -/
def Capability.from_token (token : String) : Except GnosError Capability :=
  if token.data.take 5 = "gnos.".data then
    match b64Decode (token.data.drop 5) with
    | none => .error (.PermissionDenied "Invalid token encoding")
    | some bytes =>
      match decodeCapability bytes with
      | none => .error (.PermissionDenied "Invalid token JSON")
      | some c => .ok c
  else .error (.PermissionDenied "Invalid token format")

theorem to_token_data (c : Capability) :
    c.to_token.data = "gnos.".data ++ b64Encode (encodeCapability c) := by
  simp [Capability.to_token, String.data_append]

theorem from_token_to_token (c : Capability) :
    Capability.from_token c.to_token = .ok c := by
  rw [Capability.from_token, to_token_data]
  have hlen : ("gnos.".data).length = 5 := rfl
  have htake : ("gnos.".data ++ b64Encode (encodeCapability c)).take 5 = "gnos.".data := by
    rw [← hlen]; exact List.take_left _ _
  have hdrop : ("gnos.".data ++ b64Encode (encodeCapability c)).drop 5 =
      b64Encode (encodeCapability c) := by
    rw [← hlen]; exact List.drop_left _ _
  rw [htake, hdrop, if_pos rfl, b64Decode_b64Encode _ (encodeCapability_lt c)]
  dsimp only
  rw [decodeCapability_encodeCapability c]

/-! ## Association lists modelling `HashMap`

`insert` replaces the value when the key is present (keeping its position)
and appends otherwise; `remove` erases the key; `lookup` finds the value;
iteration (`values`) is list order. -/

def mapLookup {α β : Type} [DecidableEq α] (k : α) : List (α × β) → Option β
  | [] => none
  | (k1, v) :: rest => if k1 = k then some v else mapLookup k rest

def mapInsert {α β : Type} [DecidableEq α] (k : α) (v : β) : List (α × β) → List (α × β)
  | [] => [(k, v)]
  | (k1, v1) :: rest =>
    if k1 = k then (k, v) :: rest else (k1, v1) :: mapInsert k v rest

def mapRemove {α β : Type} [DecidableEq α] (k : α) : List (α × β) → List (α × β)
  | [] => []
  | (k1, v1) :: rest => if k1 = k then rest else (k1, v1) :: mapRemove k rest

/-! ## The audited capability manager (capabilities.rs lines 134-399)

State and operations of `CapabilityManager`. Each operation takes the
current `SystemTime::now()` instant explicitly, and `check_permission`
takes the ambient `GNOS_TOKEN` environment value (std::env, external) as
an `Option String` parameter. -/

/-- `AuditEntry` (capabilities.rs lines 166-174). -/
structure AuditEntry where
  timestamp : Nat
  operation : Operation
  path : String
  owner : String
  success : Bool
  reason : Option String
  deriving DecidableEq, Repr

/-- `SecurityConfig` (capabilities.rs lines 134-141). -/
structure SecurityConfig where
  default_permissions : Nat
  max_token_lifetime : Nat
  require_signatures : Bool
  hmac_secret : List Nat
  trusted_issuers : List String
  deriving DecidableEq, Repr

/-- `SecurityConfig::default` (capabilities.rs lines 143-157). -/
def SecurityConfig.default : SecurityConfig :=
  { default_permissions := 0b100
    max_token_lifetime := 24 * 3600 * nsPerSec
    require_signatures := true
    hmac_secret := "gnos-dev-secret-change-in-prod!!".data.map Char.toNat
    trusted_issuers := ["gnos-cli", "gnos-web"] }

/-- The mutable state behind `CapabilityManager` (capabilities.rs lines
159-164): the active set keyed by content-derived identifier, the
validation cache keyed by the raw token string with the caching instant,
and the audit log. -/
structure ManagerState where
  config : SecurityConfig
  active_capabilities : List (String × Capability)
  capability_cache : List (String × (Capability × Nat))
  audit_log : List AuditEntry
  deriving DecidableEq, Repr

/-- `CapabilityManager::new` (lines 177-186). -/
def ManagerState.new (config : SecurityConfig) : ManagerState :=
  { config := config
    active_capabilities := []
    capability_cache := []
    audit_log := [] }

/-- `CapabilityManager::hash_capability` (lines 302-312): the hashed
message `format!("{}:{}:{}:{}", path, permissions, owner, issued_at-secs)`.
Modelled from the spec: the SHA-256 digest and its base64 rendering (ring
crate, external) are an injective function of the message, represented by
the message itself. -/
def hash_capability (c : Capability) : String :=
  c.path ++ ":" ++ decimalRepr c.permissions ++ ":" ++ c.owner ++ ":" ++
    decimalRepr (asSecs c.issued_at)

/-- The append-then-evict step of `log_access` (lines 331-337): push the
entry, then drop the oldest 5000 entries when the length exceeds 10000. -/
def auditPush (log : List AuditEntry) (e : AuditEntry) : List AuditEntry :=
  let log1 := log ++ [e]
  if 10000 < log1.length then log1.drop 5000 else log1

/-- `CapabilityManager::log_access` (lines 314-338). -/
def log_access (st : ManagerState) (now : Nat) (path : String) (op : Operation)
    (owner : String) (success : Bool) (reason : Option String) : ManagerState :=
  { st with audit_log := auditPush st.audit_log ⟨now, op, path, owner, success, reason⟩ }

/-- `CapabilityManager::validate_token` (lines 265-300): 60-second cache
keyed by the raw token string, then decode, expiry check, signature check
when required, and cache insertion on success. `cached_at.elapsed()` with
`unwrap_or_default` is `now - cached_at` saturating at zero, which `Nat`
subtraction is. -/
def validate_token (st : ManagerState) (now : Nat) (token : String) :
    Except GnosError Capability × ManagerState :=
  let cached : Option Capability :=
    match mapLookup token st.capability_cache with
    | some (cap, cached_at) =>
      if now - cached_at < 60 * nsPerSec then
        if cap.is_expired now then none else some cap
      else none
    | none => none
  match cached with
  | some cap => (.ok cap, st)
  | none =>
    match Capability.from_token token with
    | .error e => (.error e, st)
    | .ok cap =>
      if cap.is_expired now then (.error .CapabilityExpired, st)
      else if st.config.require_signatures && !cap.verify st.config.hmac_secret then
        (.error (.PermissionDenied "Invalid signature"), st)
      else
        (.ok cap,
          { st with capability_cache := mapInsert token (cap, now) st.capability_cache })

/-- The active-set scan of `check_permission` (lines 202-210): first entry,
in iteration order, that is valid for the path, allows the operation, and
is unexpired. -/
def findActiveCapability (l : List (String × Capability)) (now : Nat)
    (path : String) (op : Operation) : Option Capability :=
  (l.map Prod.snd).find? (fun cap =>
    cap.is_valid_for_path path && cap.allows op && !cap.is_expired now)

/-- `CapabilityManager::check_permission` (lines 188-222). -/
def check_permission (st : ManagerState) (env_token : Option String) (now : Nat)
    (path : String) (op : Operation) : Except GnosError Unit × ManagerState :=
  let step1 : Option Capability × ManagerState :=
    match env_token with
    | some token =>
      match validate_token st now token with
      | (.ok cap, st1) =>
        if cap.is_valid_for_path path && cap.allows op then (some cap, st1)
        else (none, st1)
      | (.error _, st1) => (none, st1)
    | none => (none, st)
  match step1 with
  | (some cap, st1) => (.ok (), log_access st1 now path op cap.owner true none)
  | (none, st1) =>
    match findActiveCapability st1.active_capabilities now path op with
    | some cap => (.ok (), log_access st1 now path op cap.owner true none)
    | none =>
      (.error (.PermissionDenied ("Access denied to " ++ path ++ " for " ++
          op.debugStr ++ ": " ++ "No valid capability found")),
        log_access st1 now path op "unknown" false (some "No valid capability found"))

/-- `CapabilityManager::grant_capability` (lines 224-251): clamp the
duration, construct, sign when required, store under the content-derived
identifier, return the token. -/
def grant_capability (st : ManagerState) (now : Nat) (path : String)
    (permissions : Nat) (owner : String) (duration : Nat) :
    String × ManagerState :=
  let duration := min duration st.config.max_token_lifetime
  let cap0 := Capability.new path permissions owner now duration
  let cap := if st.config.require_signatures then cap0.sign st.config.hmac_secret else cap0
  let token := cap.to_token
  let capability_id := hash_capability cap
  (token,
    { st with active_capabilities := mapInsert capability_id cap st.active_capabilities })

/-- `CapabilityManager::revoke_capability` (lines 253-263): decode the
token, recompute the identifier, remove that key from the active set and
from the validation cache. Note the source removes the *capability_id* key
from the cache although the cache is keyed by raw token strings. -/
def revoke_capability (st : ManagerState) (token : String) :
    Except GnosError Unit × ManagerState :=
  match Capability.from_token token with
  | .error e => (.error e, st)
  | .ok cap =>
    let capability_id := hash_capability cap
    (.ok (),
      { st with
        active_capabilities := mapRemove capability_id st.active_capabilities
        capability_cache := mapRemove capability_id st.capability_cache })

/-! ## The simplified capability manager (src/security/mod.rs)

`src/security/mod.rs` defines a second `Capability` (four fields, no
signature) and a second `CapabilityManager` sharing the names of the
audited one. `src/lib.rs` re-exports `security::{Capability,
CapabilityManager, Operation}` at the crate root, and
`src/vfs/filesystem.rs` imports `crate::security::CapabilityManager`, so
this is the variant the protocol engine links against. -/

/-- The `Capability` of mod.rs lines 26-32. -/
structure SimpleCapability where
  path : String
  permissions : Nat
  expiration : Nat
  owner : String
  deriving DecidableEq, Repr

namespace SimpleCapability

/-- mod.rs lines 35-37. -/
def allows (c : SimpleCapability) (operation : Operation) : Bool :=
  c.permissions &&& operation.to_bit != 0

/-- mod.rs lines 39-41. -/
def is_expired (c : SimpleCapability) (now : Nat) : Bool :=
  now > c.expiration

/-- mod.rs lines 43-45. -/
def is_valid_for_path (c : SimpleCapability) (path : String) : Bool :=
  pathStartsWith path c.path

/-- Structured encoding of the four-field capability (serde_json model,
as for the audited variant). -/
def encode (c : SimpleCapability) : List Nat :=
  encString c.path ++ encNat c.permissions ++ encNat c.expiration ++ encString c.owner

def decode (bs : List Nat) : Option SimpleCapability :=
  match parseString bs with
  | none => none
  | some (path, bs1) =>
    match parseNat bs1 with
    | none => none
    | some (permissions, bs2) =>
      match parseNat bs2 with
      | none => none
      | some (expiration, bs3) =>
        match parseString bs3 with
        | none => none
        | some (owner, bs4) =>
          if bs4.isEmpty then some ⟨path, permissions, expiration, owner⟩ else none

/-- mod.rs lines 47-53. -/
def to_token (c : SimpleCapability) : String :=
  "gnos." ++ String.mk (b64Encode (SimpleCapability.encode c))

/-- mod.rs lines 55-71. -/
def from_token (token : String) : Except GnosError SimpleCapability :=
  if token.data.take 5 = "gnos.".data then
    match b64Decode (token.data.drop 5) with
    | none => .error (.PermissionDenied "Invalid token encoding")
    | some bytes =>
      match SimpleCapability.decode bytes with
      | none => .error (.PermissionDenied "Invalid token JSON")
      | some c => .ok c
  else .error (.PermissionDenied "Invalid token format")

end SimpleCapability

/-- The `SecurityConfig` of mod.rs lines 74-87. -/
structure SimpleSecurityConfig where
  default_permissions : Nat
  max_token_lifetime : Nat
  deriving DecidableEq, Repr

/-- `CapabilityManager::check_permission` of mod.rs lines 98-112: consult
the ambient token if present; whatever the outcome, fall through to
`Ok(())` ("allow all operations, development mode"). -/
def simple_check_permission (_config : SimpleSecurityConfig)
    (env_token : Option String) (now : Nat) (path : String) (op : Operation) :
    Except GnosError Unit :=
  match env_token with
  | some token =>
    match SimpleCapability.from_token token with
    | .ok cap =>
      if cap.is_valid_for_path path && cap.allows op && !cap.is_expired now then
        .ok ()
      else .ok ()
    | .error _ => .ok ()
  | none => .ok ()

/-! ## Inode manager (src/vfs/inode.rs) -/

/-- `GnosInode` (inode.rs lines 6-16). -/
structure GnosInode where
  ino : Nat
  path : String
  is_dir : Bool
  size : Nat
  permissions : Nat
  mtime : Nat
  ctime : Nat
  crtime : Nat
  deriving DecidableEq, Repr

/-- `GnosInode::new_directory` (inode.rs lines 19-31). -/
def GnosInode.new_directory (now ino : Nat) (path : String) : GnosInode :=
  ⟨ino, path, true, 4096, 0o755, now, now, now⟩

/-- `GnosInode::new_file` (inode.rs lines 33-45). -/
def GnosInode.new_file (now ino : Nat) (path : String) : GnosInode :=
  ⟨ino, path, false, 0, 0o644, now, now, now⟩

/-- `InodeManager` (inode.rs lines 48-52): identifier→record map,
path→identifier map, next-identifier counter. -/
structure InodeManager where
  inodes : List (Nat × GnosInode)
  path_to_ino : List (String × Nat)
  next_ino : Nat
  deriving DecidableEq, Repr

namespace InodeManager

/-- inode.rs lines 55-61. -/
def new : InodeManager := ⟨[], [], 2⟩

/-- inode.rs lines 63-70. -/
def create_directory (m : InodeManager) (now ino : Nat) (path : String) : InodeManager :=
  { m with
    inodes := mapInsert ino (GnosInode.new_directory now ino path) m.inodes
    path_to_ino := mapInsert path ino m.path_to_ino }

/-- inode.rs lines 72-79. -/
def create_file (m : InodeManager) (now ino : Nat) (path : String) : InodeManager :=
  { m with
    inodes := mapInsert ino (GnosInode.new_file now ino path) m.inodes
    path_to_ino := mapInsert path ino m.path_to_ino }

/-- inode.rs lines 81-83. -/
def get (m : InodeManager) (ino : Nat) : Option GnosInode :=
  mapLookup ino m.inodes

/-- inode.rs lines 85-87. -/
def find_by_path (m : InodeManager) (path : String) : Option Nat :=
  mapLookup path m.path_to_ino

end InodeManager

/-! ## Protocol engine (src/vfs/filesystem.rs)

`GnosFileSystem` holds the driver registry, the (simplified) capability
manager, the inode manager, the open-file table and the next handle. The
`calls` field is instrumentation: it records every delegation the engine
makes to the Capability Manager (`check_permission`) or to a backend via
the Driver Registry; the translated bodies of `read` and `write`
(filesystem.rs lines 171-222) contain no such delegation, which this
field makes observable. -/

inductive EngineCall
  | permCheck (path : String) (op : Operation)
  | driverRead (path : String)
  | driverWrite (path : String)
  deriving DecidableEq, Repr

/-- `OpenFile` (filesystem.rs lines 28-32). -/
structure OpenFile where
  path : String
  data : Option (List Nat)
  deriving DecidableEq, Repr

structure GnosFileSystem where
  capability_config : SimpleSecurityConfig
  inode_manager : InodeManager
  open_files : List (Nat × OpenFile)
  next_fh : Nat
  calls : List EngineCall
  deriving DecidableEq, Repr

/-- FUSE replies relevant to `read`/`write`; errors carry the libc errno
(`EBADF` = 9). -/
inductive FuseReply
  | data (bytes : List Nat)
  | written (size : Nat)
  | error (errno : Nat)
  deriving DecidableEq, Repr

/-- Bytes of a string (ASCII in every scenario the engine produces). -/
def strBytes (s : String) : List Nat := s.data.map Char.toNat

namespace GnosFileSystem

/-- `Filesystem::read` for `GnosFileSystem` (filesystem.rs lines 171-199):
look up the handle, fabricate the placeholder content
`"GNOS Virtual File: {path}\n"`, and reply with the requested slice of it;
`EBADF` for an unknown handle. -/
def read (st : GnosFileSystem) (fh : Nat) (offset : Nat) (size : Nat) :
    FuseReply × GnosFileSystem :=
  match mapLookup fh st.open_files with
  | some open_file =>
    let data := strBytes ("GNOS Virtual File: " ++ open_file.path ++ "\n")
    let start := offset
    let endIdx := min (start + size) data.length
    if start < data.length then (.data ((data.take endIdx).drop start), st)
    else (.data [], st)
  | none => (.error 9, st)

/-- `Filesystem::write` for `GnosFileSystem` (filesystem.rs lines 201-222):
look up the handle, store the written bytes in the in-memory `OpenFile`,
and acknowledge the full length; `EBADF` for an unknown handle. -/
def write (st : GnosFileSystem) (fh : Nat) (_offset : Nat) (data : List Nat) :
    FuseReply × GnosFileSystem :=
  match mapLookup fh st.open_files with
  | some open_file =>
    (.written data.length,
      { st with open_files := mapInsert fh { open_file with data := some data } st.open_files })
  | none => (.error 9, st)

end GnosFileSystem

/-! ## Shared lemmas -/

theorem mapLookup_mapInsert_self {α β : Type} [DecidableEq α] (k : α) (v : β)
    (l : List (α × β)) : mapLookup k (mapInsert k v l) = some v := by
  induction l with
  | nil => simp [mapInsert, mapLookup]
  | cons p rest ih =>
    obtain ⟨k1, v1⟩ := p
    by_cases h : k1 = k
    · simp [mapInsert, mapLookup, h]
    · simp [mapInsert, mapLookup, h, ih]

theorem mapLookup_mapInsert_ne {α β : Type} [DecidableEq α] {k k2 : α} (v : β)
    (l : List (α × β)) (h : k2 ≠ k) :
    mapLookup k2 (mapInsert k v l) = mapLookup k2 l := by
  have hne : ¬ (k = k2) := fun he => h he.symm
  induction l with
  | nil => simp [mapInsert, mapLookup, hne]
  | cons p rest ih =>
    obtain ⟨k1, v1⟩ := p
    by_cases h1 : k1 = k
    · subst h1
      simp [mapInsert, mapLookup, hne]
    · simp only [mapInsert, h1, if_false, mapLookup]
      by_cases h2 : k1 = k2
      · simp [h2]
      · simp [h2, ih]

theorem strAppend_right_cancel {a b r : String} (h : a ++ r = b ++ r) : a = b := by
  apply String.ext
  have hd := congrArg String.data h
  simp only [String.data_append] at hd
  exact List.append_cancel_right hd

theorem strAppend_left_cancel {r a b : String} (h : r ++ a = r ++ b) : a = b := by
  apply String.ext
  have hd := congrArg String.data h
  simp only [String.data_append] at hd
  exact List.append_cancel_left hd

theorem sd_eq_path {p1 p2 a b o : String}
    (h : p1 ++ ":" ++ a ++ ":" ++ b ++ ":" ++ o = p2 ++ ":" ++ a ++ ":" ++ b ++ ":" ++ o) :
    p1 = p2 :=
  strAppend_right_cancel (strAppend_right_cancel (strAppend_right_cancel
    (strAppend_right_cancel (strAppend_right_cancel (strAppend_right_cancel h)))))

theorem sd_eq_perms {p a1 a2 b o : String}
    (h : p ++ ":" ++ a1 ++ ":" ++ b ++ ":" ++ o = p ++ ":" ++ a2 ++ ":" ++ b ++ ":" ++ o) :
    a1 = a2 :=
  strAppend_left_cancel (strAppend_right_cancel (strAppend_right_cancel
    (strAppend_right_cancel (strAppend_right_cancel h))))

theorem sd_eq_expir {p a b1 b2 o : String}
    (h : p ++ ":" ++ a ++ ":" ++ b1 ++ ":" ++ o = p ++ ":" ++ a ++ ":" ++ b2 ++ ":" ++ o) :
    b1 = b2 :=
  strAppend_left_cancel (strAppend_right_cancel (strAppend_right_cancel h))

theorem sd_eq_owner {p a b o1 o2 : String}
    (h : p ++ ":" ++ a ++ ":" ++ b ++ ":" ++ o1 = p ++ ":" ++ a ++ ":" ++ b ++ ":" ++ o2) :
    o1 = o2 :=
  strAppend_left_cancel h

/-! ## Claim theorems -/

/-- Concrete capability used by witnesses and counterexamples: granted for
`/cloud/aws`, read permission, owner alice, issued at instant 0 with a
300-nanosecond lifetime (kept tiny so kernel evaluation stays cheap). -/
def sampleCapability : Capability := Capability.new "/cloud/aws" 4 "alice" 0 300

/-- C2 counterexample: the claim says mutating any one field after
signing — `issued_at` and `expiration` included — makes `verify(S)` fail.
It does not: the signing input omits `issued_at` entirely and truncates
`expiration` to whole epoch seconds, so mutating `issued_at`, or moving
`expiration` within the same second, leaves verification succeeding. -/
theorem C2_counterexample :
    (let c := sampleCapability.sign (strBytes "k1")
     ({ c with issued_at := c.issued_at + 1 } : Capability).verify (strBytes "k1") = true) ∧
    (let c := sampleCapability.sign (strBytes "k1")
     ({ c with expiration := c.expiration + 1 } : Capability).verify (strBytes "k1") = true) := by
  decide

/-- C2 (amended): after `sign(S)`, `verify(S)` succeeds and `verify(S2)`
fails for every other secret; mutating `path`, `permissions`, or `owner`
to a different value invalidates verification; mutating `expiration`
invalidates it exactly when its whole-second value changes; and mutating
`issued_at` never invalidates it (the signing input does not include
`issued_at`). -/
theorem C2_sign_verify (c : Capability) (S : List Nat) :
    (c.sign S).verify S = true ∧
    (∀ S2, S2 ≠ S → (c.sign S).verify S2 = false) ∧
    (∀ p, p ≠ c.path → ({ c.sign S with path := p } : Capability).verify S = false) ∧
    (∀ pm, pm ≠ c.permissions →
      ({ c.sign S with permissions := pm } : Capability).verify S = false) ∧
    (∀ o, o ≠ c.owner → ({ c.sign S with owner := o } : Capability).verify S = false) ∧
    (∀ e, ({ c.sign S with expiration := e } : Capability).verify S = false ↔
      asSecs e ≠ asSecs c.expiration) ∧
    (∀ i, ({ c.sign S with issued_at := i } : Capability).verify S = true) := by
  refine ⟨?_, ?_, ?_, ?_, ?_, ?_, ?_⟩
  · simp [Capability.verify, Capability.sign, hmacSha256, Capability.signingData]
  · intro S2 h
    simp only [Capability.verify, Capability.sign, hmacSha256, Capability.signingData,
      Prod.mk.injEq, decide_eq_false_iff_not, not_and]
    exact fun he => absurd he.symm h
  · intro p h
    simp only [Capability.verify, Capability.sign, hmacSha256, Capability.signingData,
      Prod.mk.injEq, decide_eq_false_iff_not, not_and, true_implies]
    intro he
    exact h (sd_eq_path he).symm
  · intro pm h
    simp only [Capability.verify, Capability.sign, hmacSha256, Capability.signingData,
      Prod.mk.injEq, decide_eq_false_iff_not, not_and, true_implies]
    intro he
    exact h (decimalRepr_injective (sd_eq_perms he)).symm
  · intro o h
    simp only [Capability.verify, Capability.sign, hmacSha256, Capability.signingData,
      Prod.mk.injEq, decide_eq_false_iff_not, not_and, true_implies]
    intro he
    exact h (sd_eq_owner he).symm
  · intro e
    simp only [Capability.verify, Capability.sign, hmacSha256, Capability.signingData,
      Prod.mk.injEq, decide_eq_false_iff_not, not_and, true_implies]
    constructor
    · intro hv heq
      exact hv (by rw [heq])
    · intro hne he
      exact hne (decimalRepr_injective (sd_eq_expir he)).symm
  · intro i
    simp [Capability.verify, Capability.sign, hmacSha256, Capability.signingData]

/-- C2 witness: the amended theorem applied to the sample capability and
the secrets `k1`, `k2`. -/
theorem C2_sign_verify_witness :
    strBytes "k2" ≠ strBytes "k1" ∧
    (sampleCapability.sign (strBytes "k1")).verify (strBytes "k1") = true ∧
    (sampleCapability.sign (strBytes "k1")).verify (strBytes "k2") = false :=
  ⟨by decide, (C2_sign_verify sampleCapability (strBytes "k1")).1,
    (C2_sign_verify sampleCapability (strBytes "k1")).2.1 (strBytes "k2") (by decide)⟩

/-- Mutual consistency of the two inode maps: every identifier binding
points back to itself through the path map, and every path binding is
backed by a record carrying that path. -/
def InodeConsistent (m : InodeManager) : Prop :=
  (∀ i r, mapLookup i m.inodes = some r →
    r.ino = i ∧ mapLookup r.path m.path_to_ino = some i) ∧
  (∀ p i, mapLookup p m.path_to_ino = some i →
    ∃ r, mapLookup i m.inodes = some r ∧ r.path = p)

theorem inodeConsistent_insert (m : InodeManager) (ino : Nat) (path : String)
    (r : GnosInode) (hino : r.ino = ino) (hpath : r.path = path)
    (hc : InodeConsistent m)
    (h1 : ∀ r0, mapLookup ino m.inodes = some r0 → r0.path = path)
    (h2 : ∀ i0, mapLookup path m.path_to_ino = some i0 → i0 = ino) :
    InodeConsistent
      { m with
        inodes := mapInsert ino r m.inodes
        path_to_ino := mapInsert path ino m.path_to_ino } := by
  obtain ⟨hA, hB⟩ := hc
  constructor
  · intro i r0 hl
    by_cases hi : i = ino
    · subst hi
      rw [mapLookup_mapInsert_self] at hl
      injection hl with hl
      subst hl
      refine ⟨hino, ?_⟩
      rw [hpath, mapLookup_mapInsert_self]
    · rw [mapLookup_mapInsert_ne _ _ hi] at hl
      obtain ⟨hrino, hrpath⟩ := hA i r0 hl
      refine ⟨hrino, ?_⟩
      by_cases hp : r0.path = path
      · exact absurd (h2 i (hp ▸ hrpath)) hi
      · rw [mapLookup_mapInsert_ne _ _ hp]
        exact hrpath
  · intro p i hl
    by_cases hp : p = path
    · subst hp
      rw [mapLookup_mapInsert_self] at hl
      injection hl with hl
      subst hl
      exact ⟨r, by rw [mapLookup_mapInsert_self], hpath⟩
    · rw [mapLookup_mapInsert_ne _ _ hp] at hl
      obtain ⟨r0, hr0, hr0p⟩ := hB p i hl
      by_cases hi : i = ino
      · subst hi
        exact absurd (hr0p ▸ h1 r0 hr0) hp
      · exact ⟨r0, by rw [mapLookup_mapInsert_ne _ _ hi]; exact hr0, hr0p⟩

/-- C5 counterexample: with a reused identifier, the old path binding is
NOT removed — after `create_file(10, "/a")` then `create_file(10, "/b")`,
`find_by_path("/a")` is still `some 10`, where the claim requires none. -/
theorem C5_counterexample :
    (let m := (InodeManager.new.create_file 0 10 "/a").create_file 1 10 "/b"
     (InodeManager.get m 10).map GnosInode.path = some "/b" ∧
       InodeManager.find_by_path m "/a" = some 10 ∧
       InodeManager.find_by_path m "/a" ≠ none) := by
  decide

/-- C5 (amended): `create_file`/`create_directory` install both sides of
the mapping, and re-creating with a reused identifier rebinds the
identifier to the new path (`get(10).path = "/b"`, `find_by_path("/b") =
10`) but leaves the old path binding in place (`find_by_path("/a") =
some 10`); the two maps are mutually consistent after any sequence of
creates in which no identifier is reused with a different path and no
path is reused with a different identifier. -/
theorem C5_inode_rebind :
    (∀ t1 t2 : Nat,
      (let m := (InodeManager.new.create_file t1 10 "/a").create_file t2 10 "/b"
       (InodeManager.get m 10).map GnosInode.path = some "/b" ∧
         InodeManager.find_by_path m "/b" = some 10 ∧
         InodeManager.find_by_path m "/a" = some 10)) ∧
    InodeConsistent InodeManager.new ∧
    (∀ (m : InodeManager) (now ino : Nat) (path : String),
      InodeConsistent m →
      (∀ r0, mapLookup ino m.inodes = some r0 → r0.path = path) →
      (∀ i0, mapLookup path m.path_to_ino = some i0 → i0 = ino) →
      InodeConsistent (m.create_file now ino path) ∧
        InodeConsistent (m.create_directory now ino path)) := by
  refine ⟨?_, ?_, ?_⟩
  · intro t1 t2
    simp [InodeManager.new, InodeManager.create_file, InodeManager.get,
      InodeManager.find_by_path, mapInsert, mapLookup, GnosInode.new_file]
  · exact ⟨fun i r h => by simp [InodeManager.new, mapLookup] at h,
      fun p i h => by simp [InodeManager.new, mapLookup] at h⟩
  · intro m now ino path hc h1 h2
    exact ⟨inodeConsistent_insert m ino path _ rfl rfl hc h1 h2,
      inodeConsistent_insert m ino path _ rfl rfl hc h1 h2⟩

/-- C5 witness: the preservation part applied to the empty manager and a
fresh identifier and path. -/
theorem C5_inode_rebind_witness :
    InodeConsistent (InodeManager.new.create_file 0 10 "/a") :=
  (C5_inode_rebind.2.2 InodeManager.new 0 10 "/a" C5_inode_rebind.2.1
    (fun r0 h => by simp [InodeManager.new, mapLookup] at h)
    (fun i0 h => by simp [InodeManager.new, mapLookup] at h)).1

theorem validate_token_audit (st : ManagerState) (now : Nat) (token : String) :
    (validate_token st now token).2.audit_log = st.audit_log := by
  rw [validate_token.eq_def]
  dsimp only
  split
  · rfl
  · split
    · rfl
    · split
      · rfl
      · split
        · rfl
        · rfl

/-- The entry `check_permission` appends when it denies. -/
def denialEntry (now : Nat) (path : String) (op : Operation) : AuditEntry :=
  ⟨now, op, path, "unknown", false, some "No valid capability found"⟩

/-- C7 counterexample: the denial reason recorded by the source is
`"No valid capability found"` (capital N), not the claim's
`"no valid capability found"`; everything else in the claim's scenario —
exactly one appended entry, success `false`, owner `"unknown"` — holds. -/
theorem C7_counterexample :
    (check_permission (ManagerState.new SecurityConfig.default) none 0 "/net/http"
        Operation.Read).2.audit_log =
      [⟨0, Operation.Read, "/net/http", "unknown", false,
        some "No valid capability found"⟩] ∧
    (some "No valid capability found" : Option String) ≠ some "no valid capability found" ∧
    (check_permission (ManagerState.new SecurityConfig.default) none 0 "/net/http"
        Operation.Read).1 =
      .error (.PermissionDenied
        "Access denied to /net/http for Read: No valid capability found") := by
  decide

/-- C7 (amended): every `check_permission` call appends exactly one audit
entry — the final log is `auditPush` of the prior log with a single entry
carrying the request's timestamp, path and operation — whether it
authorizes or denies; and with no ambient token and no matching active
capability it denies with reason `"No valid capability found"` and appends
the denial entry with success `false` and owner `"unknown"`. -/
theorem C7_audit_exactly_once (st : ManagerState) (env : Option String) (now : Nat)
    (path : String) (op : Operation) :
    (∃ e : AuditEntry,
      (check_permission st env now path op).2.audit_log = auditPush st.audit_log e ∧
        e.timestamp = now ∧ e.path = path ∧ e.operation = op) ∧
    (env = none → findActiveCapability st.active_capabilities now path op = none →
      check_permission st env now path op =
        (.error (.PermissionDenied ("Access denied to " ++ path ++ " for " ++
            op.debugStr ++ ": " ++ "No valid capability found")),
          log_access st now path op "unknown" false
            (some "No valid capability found"))) := by
  cases env with
  | none =>
    rw [check_permission.eq_def]
    dsimp only
    cases hfind : findActiveCapability st.active_capabilities now path op with
    | some cap =>
      refine ⟨⟨⟨now, op, path, cap.owner, true, none⟩, rfl, rfl, rfl, rfl⟩, ?_⟩
      intro _ hfind2
      exact Option.noConfusion hfind2
    | none =>
      exact ⟨⟨denialEntry now path op, rfl, rfl, rfl, rfl⟩, fun _ _ => rfl⟩
  | some token =>
    refine ⟨?_, fun h => nomatch h⟩
    rw [check_permission.eq_def]
    dsimp only
    have haudit := validate_token_audit st now token
    cases hv : validate_token st now token with
    | mk res st1 =>
      rw [hv] at haudit
      dsimp only at haudit
      cases res with
      | error e =>
        dsimp only
        cases hfind : findActiveCapability st1.active_capabilities now path op with
        | some cap =>
          refine ⟨⟨now, op, path, cap.owner, true, none⟩, ?_, rfl, rfl, rfl⟩
          dsimp only [log_access]
          rw [haudit]
        | none =>
          refine ⟨denialEntry now path op, ?_, rfl, rfl, rfl⟩
          dsimp only [log_access, denialEntry]
          rw [haudit]
      | ok cap =>
        dsimp only
        by_cases hok : cap.is_valid_for_path path && cap.allows op
        · rw [if_pos hok]
          refine ⟨⟨now, op, path, cap.owner, true, none⟩, ?_, rfl, rfl, rfl⟩
          dsimp only [log_access]
          rw [haudit]
        · rw [if_neg hok]
          dsimp only
          cases hfind : findActiveCapability st1.active_capabilities now path op with
          | some cap2 =>
            refine ⟨⟨now, op, path, cap2.owner, true, none⟩, ?_, rfl, rfl, rfl⟩
            dsimp only [log_access]
            rw [haudit]
          | none =>
            refine ⟨denialEntry now path op, ?_, rfl, rfl, rfl⟩
            dsimp only [log_access, denialEntry]
            rw [haudit]

/-- C7 witness: the theorem applied to a fresh manager state with no
ambient token, read on `/net/http`. -/
theorem C7_audit_exactly_once_witness :
    check_permission (ManagerState.new SecurityConfig.default) none 0 "/net/http"
        Operation.Read =
      (.error (.PermissionDenied ("Access denied to " ++ "/net/http" ++ " for " ++
          Operation.Read.debugStr ++ ": " ++ "No valid capability found")),
        log_access (ManagerState.new SecurityConfig.default) 0 "/net/http"
          Operation.Read "unknown" false (some "No valid capability found")) :=
  (C7_audit_exactly_once (ManagerState.new SecurityConfig.default) none 0 "/net/http"
    Operation.Read).2 rfl (by decide)

theorem hash_capability_fields (c1 c2 : Capability) (hp : c1.path = c2.path)
    (hpm : c1.permissions = c2.permissions) (ho : c1.owner = c2.owner)
    (hi : asSecs c1.issued_at = asSecs c2.issued_at) :
    hash_capability c1 = hash_capability c2 := by
  rw [hash_capability, hash_capability, hp, hpm, ho, hi]

/-- C10: the content-derived identifier depends only on
(path, permissions, owner, issuance instant truncated to whole epoch
seconds); two grants with identical path, permissions and owner inside the
same epoch second therefore collide, the second overwriting the first in
the active set, and revoking either token removes the single remaining
entry. -/
theorem C10_grant_overwrite (cfg : SecurityConfig) (now1 now2 : Nat) (path : String)
    (perms : Nat) (owner : String) (d1 d2 : Nat)
    (hsec : asSecs now1 = asSecs now2) :
    (∀ c1 c2 : Capability, c1.path = c2.path → c1.permissions = c2.permissions →
      c1.owner = c2.owner → asSecs c1.issued_at = asSecs c2.issued_at →
      hash_capability c1 = hash_capability c2) ∧
    (∃ id cap1 cap2,
      (grant_capability (ManagerState.new cfg) now1 path perms owner d1).2.active_capabilities
        = [(id, cap1)] ∧
      (grant_capability (grant_capability (ManagerState.new cfg) now1 path perms owner d1).2
          now2 path perms owner d2).2.active_capabilities = [(id, cap2)] ∧
      (revoke_capability
        (grant_capability (grant_capability (ManagerState.new cfg) now1 path perms owner d1).2
          now2 path perms owner d2).2
        (grant_capability (ManagerState.new cfg) now1 path perms owner d1).1).2.active_capabilities
        = [] ∧
      (revoke_capability
        (grant_capability (grant_capability (ManagerState.new cfg) now1 path perms owner d1).2
          now2 path perms owner d2).2
        (grant_capability (grant_capability (ManagerState.new cfg) now1 path perms owner d1).2
          now2 path perms owner d2).1).2.active_capabilities = []) := by
  refine ⟨fun c1 c2 hp hpm ho hi => hash_capability_fields c1 c2 hp hpm ho hi, ?_⟩
  have hfields : ∀ (now d : Nat),
      (if cfg.require_signatures then
          (Capability.new path perms owner now d).sign cfg.hmac_secret
        else Capability.new path perms owner now d).path = path ∧
      (if cfg.require_signatures then
          (Capability.new path perms owner now d).sign cfg.hmac_secret
        else Capability.new path perms owner now d).permissions = perms ∧
      (if cfg.require_signatures then
          (Capability.new path perms owner now d).sign cfg.hmac_secret
        else Capability.new path perms owner now d).owner = owner ∧
      (if cfg.require_signatures then
          (Capability.new path perms owner now d).sign cfg.hmac_secret
        else Capability.new path perms owner now d).issued_at = now := by
    intro now d
    by_cases h : cfg.require_signatures <;>
      simp [h, Capability.sign, Capability.new]
  obtain ⟨hp1, hpm1, ho1, hi1⟩ := hfields now1 (min d1 cfg.max_token_lifetime)
  obtain ⟨hp2, hpm2, ho2, hi2⟩ := hfields now2 (min d2 cfg.max_token_lifetime)
  simp only [grant_capability, ManagerState.new]
  set c1 : Capability := if cfg.require_signatures then
      (Capability.new path perms owner now1 (min d1 cfg.max_token_lifetime)).sign
        cfg.hmac_secret
    else Capability.new path perms owner now1 (min d1 cfg.max_token_lifetime) with hc1
  set c2 : Capability := if cfg.require_signatures then
      (Capability.new path perms owner now2 (min d2 cfg.max_token_lifetime)).sign
        cfg.hmac_secret
    else Capability.new path perms owner now2 (min d2 cfg.max_token_lifetime) with hc2
  have hid : hash_capability c2 = hash_capability c1 :=
    hash_capability_fields c2 c1 (hp2.trans hp1.symm) (hpm2.trans hpm1.symm)
      (ho2.trans ho1.symm) (by rw [hi2, hi1]; exact hsec.symm)
  refine ⟨hash_capability c1, c1, c2, rfl, ?_, ?_, ?_⟩
  · rw [hid]
    simp [mapInsert]
  · rw [revoke_capability.eq_def, from_token_to_token c1]
    dsimp only
    rw [hid]
    simp [mapInsert, mapRemove]
  · rw [revoke_capability.eq_def, from_token_to_token c2]
    dsimp only
    rw [hid]
    simp [mapInsert, mapRemove]

/-- C10 witness: two grants at instants 5 and 7 nanoseconds (the same
epoch second). -/
theorem C10_grant_overwrite_witness :
    asSecs 5 = asSecs 7 ∧
    (∃ id cap1 cap2,
      (grant_capability (ManagerState.new SecurityConfig.default) 5 "/cloud" 4 "alice"
        300).2.active_capabilities = [(id, cap1)] ∧
      (grant_capability
          (grant_capability (ManagerState.new SecurityConfig.default) 5 "/cloud" 4 "alice" 300).2
          7 "/cloud" 4 "alice" 400).2.active_capabilities = [(id, cap2)] ∧
      (revoke_capability
        (grant_capability
          (grant_capability (ManagerState.new SecurityConfig.default) 5 "/cloud" 4 "alice" 300).2
          7 "/cloud" 4 "alice" 400).2
        (grant_capability (ManagerState.new SecurityConfig.default) 5 "/cloud" 4 "alice"
          300).1).2.active_capabilities = [] ∧
      (revoke_capability
        (grant_capability
          (grant_capability (ManagerState.new SecurityConfig.default) 5 "/cloud" 4 "alice" 300).2
          7 "/cloud" 4 "alice" 400).2
        (grant_capability
          (grant_capability (ManagerState.new SecurityConfig.default) 5 "/cloud" 4 "alice" 300).2
          7 "/cloud" 4 "alice" 400).1).2.active_capabilities = []) :=
  ⟨rfl, (C10_grant_overwrite SecurityConfig.default 5 7 "/cloud" 4 "alice" 300 400 rfl).2⟩

/-! C3 scenario state: grant a signed capability for `/cloud` at instant 0
with a 1000-nanosecond lifetime, validate its token at instant 5 (which
caches it under the raw token string), then revoke the token. -/

def c3Grant : String × ManagerState :=
  grant_capability (ManagerState.new SecurityConfig.default) 0 "/cloud" 4 "alice" 1000

def c3Token : String := c3Grant.1

def c3AfterValidate : ManagerState := (validate_token c3Grant.2 5 c3Token).2

def c3AfterRevoke : Except GnosError Unit × ManagerState :=
  revoke_capability c3AfterValidate c3Token

set_option maxRecDepth 100000 in
/-- C3: the code fails the claim. After grant, validate (caching the token)
and a successful revoke, the active entry is gone, but the validation
cache still holds the entry keyed by the raw token — `revoke_capability`
removes the *content-hash* key from the token-keyed cache — so a
`validate_token` 25 nanoseconds later, well inside the 60-second window,
is answered from the cache with the revoked capability and leaves the
state untouched. -/
theorem C3_revoke_leaves_cache :
    c3AfterRevoke.1 = .ok () ∧
    c3AfterRevoke.2.active_capabilities = [] ∧
    (mapLookup c3Token c3AfterRevoke.2.capability_cache).isSome = true ∧
    (mapLookup c3Token c3AfterRevoke.2.capability_cache).map Prod.fst =
      (Capability.from_token c3Token).toOption ∧
    (validate_token c3AfterRevoke.2 30 c3Token).2 = c3AfterRevoke.2 ∧
    (validate_token c3AfterRevoke.2 30 c3Token).1.toOption =
      (mapLookup c3Token c3AfterRevoke.2.capability_cache).map Prod.fst := by
  decide

/-- C1: the protocol engine's `read`/`write` do not implement the claimed
contract. `read` fabricates the placeholder content
`"GNOS Virtual File: {path}\n"` from the handle's path and returns the
requested slice of it with the state — instrumented delegation trace
included — completely unchanged; `write` stores the bytes in the in-memory
open-file entry and acknowledges the full length. Neither calls the
Capability Manager's `check_permission` nor resolves a backend through the
Driver Registry. -/
theorem C1_read_write_no_delegation (st : GnosFileSystem) (fh offset size : Nat)
    (bytes : List Nat) (f : OpenFile)
    (h : mapLookup fh st.open_files = some f)
    (hoff : offset < (strBytes ("GNOS Virtual File: " ++ f.path ++ "\n")).length) :
    GnosFileSystem.read st fh offset size =
      (FuseReply.data (((strBytes ("GNOS Virtual File: " ++ f.path ++ "\n")).take
        (min (offset + size)
          (strBytes ("GNOS Virtual File: " ++ f.path ++ "\n")).length)).drop offset),
        st) ∧
    (GnosFileSystem.read st fh offset size).2.calls = st.calls ∧
    GnosFileSystem.write st fh offset bytes =
      (FuseReply.written bytes.length,
        { st with open_files :=
            mapInsert fh ({ f with data := some bytes }) st.open_files }) ∧
    (GnosFileSystem.write st fh offset bytes).2.calls = st.calls := by
  have hread : GnosFileSystem.read st fh offset size =
      (FuseReply.data (((strBytes ("GNOS Virtual File: " ++ f.path ++ "\n")).take
        (min (offset + size)
          (strBytes ("GNOS Virtual File: " ++ f.path ++ "\n")).length)).drop offset),
        st) := by
    rw [GnosFileSystem.read.eq_def, h]
    dsimp only
    rw [if_pos hoff]
  have hwrite : GnosFileSystem.write st fh offset bytes =
      (FuseReply.written bytes.length,
        { st with open_files :=
            mapInsert fh ({ f with data := some bytes }) st.open_files }) := by
    rw [GnosFileSystem.write.eq_def, h]
  exact ⟨hread, by rw [hread], hwrite, by rw [hwrite]⟩

/-- C1 witness: a filesystem state with handle 1 open on `/proc/llama3`. -/
def sampleOpenFile : OpenFile := ⟨"/proc/llama3", none⟩

def sampleFsState : GnosFileSystem :=
  { capability_config := ⟨0b100, 24 * 3600 * nsPerSec⟩
    inode_manager := InodeManager.new
    open_files := [(1, sampleOpenFile)]
    next_fh := 2
    calls := [] }

theorem C1_read_write_no_delegation_witness :
    GnosFileSystem.read sampleFsState 1 0 4 =
      (FuseReply.data (((strBytes ("GNOS Virtual File: " ++ "/proc/llama3" ++ "\n")).take
        (min (0 + 4)
          (strBytes ("GNOS Virtual File: " ++ "/proc/llama3" ++ "\n")).length)).drop 0),
        sampleFsState) ∧
    (GnosFileSystem.read sampleFsState 1 0 4).2.calls = sampleFsState.calls ∧
    GnosFileSystem.write sampleFsState 1 0 [1, 2, 3] =
      (FuseReply.written ([1, 2, 3] : List Nat).length,
        { sampleFsState with
          open_files :=
            mapInsert 1 ({ sampleOpenFile with data := some [1, 2, 3] })
              sampleFsState.open_files }) ∧
    (GnosFileSystem.write sampleFsState 1 0 [1, 2, 3]).2.calls = sampleFsState.calls :=
  C1_read_write_no_delegation sampleFsState 1 0 4 [1, 2, 3] sampleOpenFile
    (by decide) (by decide)

/-- C4: `is_valid_for_path(target)` is true iff `target`, as a component
sequence, equals the capability's scope path or extends it by at least one
further path segment; concretely a capability scoped to `/cloud`
authorizes `/cloud/aws` and never `/cloud2/anything`. -/
theorem C4_scope_containment :
    (∀ (c : Capability) (target : String),
      c.is_valid_for_path target = true ↔
        (pathComponents target = pathComponents c.path ∨
          ∃ rest, rest ≠ [] ∧
            pathComponents target = pathComponents c.path ++ rest)) ∧
    Capability.is_valid_for_path ⟨"/cloud", 7, 0, "alice", 0, none⟩ "/cloud/aws" = true ∧
    Capability.is_valid_for_path ⟨"/cloud", 7, 0, "alice", 0, none⟩ "/cloud2/anything" = false := by
  refine ⟨fun c target => ?_, by decide, by decide⟩
  rw [Capability.is_valid_for_path, pathStartsWith, List.isPrefixOf_iff_prefix]
  constructor
  · rintro ⟨t, ht⟩
    cases t with
    | nil => left; rw [← ht]; simp
    | cons x xs => right; exact ⟨x :: xs, by simp, ht.symm⟩
  · rintro (h | ⟨rest, _, h⟩)
    · exact ⟨[], by simp [h]⟩
    · exact ⟨rest, h.symm⟩

/-- C6: the simplified `CapabilityManager` of src/security/mod.rs — the
variant re-exported at the crate root and imported by the protocol
engine — is fail-open: `check_permission` authorizes every path and
operation, including when no ambient token is present at all. -/
theorem C6_simple_manager_fail_open (config : SimpleSecurityConfig)
    (env_token : Option String) (now : Nat) (path : String) (op : Operation) :
    simple_check_permission config env_token now path op = .ok () := by
  cases env_token with
  | none => rfl
  | some token =>
    rw [simple_check_permission.eq_def]
    dsimp only
    cases SimpleCapability.from_token token with
    | error e => rfl
    | ok cap =>
      dsimp only
      split <;> rfl

/-- C8: decoding a capability's token recovers the capability exactly, and
the token is the fixed `"gnos."` prefix followed by the URL-safe unpadded
base64 of the capability's structured encoding. -/
theorem C8_token_roundtrip (c : Capability) :
    Capability.from_token c.to_token = .ok c ∧
    c.to_token = "gnos." ++ String.mk (b64Encode (encodeCapability c)) :=
  ⟨from_token_to_token c, rfl⟩

/-- C9: a `log_access` append starting from a log of at most 10000 entries
leaves at most 10000 entries; whenever the append makes the length exceed
10000, exactly the oldest 5000 entries are dropped in that same step; and
the retained entries are a contiguous tail of the appended log, in their
original append order. -/
theorem C9_audit_eviction (log : List AuditEntry) (e : AuditEntry)
    (h : log.length ≤ 10000) :
    (auditPush log e).length ≤ 10000 ∧
    (10000 < (log ++ [e]).length → auditPush log e = (log ++ [e]).drop 5000) ∧
    ∃ dropped, dropped ++ auditPush log e = log ++ [e] := by
  rw [auditPush]
  have hl : (log ++ [e]).length = log.length + 1 := by simp
  by_cases hlen : 10000 < (log ++ [e]).length
  · rw [if_pos hlen]
    refine ⟨?_, fun _ => rfl, ⟨(log ++ [e]).take 5000, List.take_append_drop _ _⟩⟩
    rw [List.length_drop, hl]
    omega
  · rw [if_neg hlen]
    exact ⟨by omega, fun hc => absurd hc hlen, ⟨[], rfl⟩⟩

/-- Sample audit entry used by the C9 witness. -/
def sampleAuditEntry : AuditEntry :=
  ⟨0, Operation.Read, "/net/http", "unknown", false, some "No valid capability found"⟩

/-- C9 witness: the theorem applied to the empty log. -/
theorem C9_audit_eviction_witness :
    ([] : List AuditEntry).length ≤ 10000 ∧
    ((auditPush [] sampleAuditEntry).length ≤ 10000 ∧
      (10000 < (([] : List AuditEntry) ++ [sampleAuditEntry]).length →
        auditPush [] sampleAuditEntry = (([] : List AuditEntry) ++ [sampleAuditEntry]).drop 5000) ∧
      ∃ dropped, dropped ++ auditPush [] sampleAuditEntry =
        ([] : List AuditEntry) ++ [sampleAuditEntry]) :=
  ⟨by decide, C9_audit_eviction [] sampleAuditEntry (by decide)⟩

end Gnos
